import Mathlib

/-!
Verification development for the cypher-swarm agent and its hivemind memory
subsystem.  The agent loop (src/index.ts, startAISystem) and the tweet-reply
pipeline (src/twitter/functions/replyToTweet.ts) are embedded from the source;
the memory subsystem (learning extractor, summarization ladder, category store,
retrieval engine) is not shipped under src/, so it is modelled from the
specification, as noted on each definition.
-/

/-! ## Data model of the memory subsystem -/

/-- Consolidation tier of a memory record: raw, short, mid or long. -/
inductive Tier where
  | raw
  | short
  | mid
  | long
  deriving DecidableEq, Repr

/-- Modelled from the spec: the fixed category taxonomy of section 3 — world
knowledge, crypto-ecosystem knowledge, self-reflection, user-specific
(parameterized by a user id), primary-post content, generated-media prompts. -/
inductive Category where
  | worldKnowledge
  | cryptoEcosystem
  | selfReflection
  | userSpecific (userId : Nat)
  | primaryPost
  | generatedMedia
  deriving DecidableEq, Repr

/-- Modelled from the spec: a MemoryRecord of the Category Store (section 3),
with id, category, tier, text, the set of consolidated input ids, creation
stamp, the `active` supersession flag and the `consumed` consolidation flag.
The Category Store itself is not under src/. -/
structure MemoryRecord where
  id : Nat
  category : Category
  tier : Tier
  text : String
  consolidatedFrom : List Nat
  createdAt : Nat
  active : Bool
  consumed : Bool
  deriving DecidableEq, Repr

/-- Modelled from the spec: the Category Store as an append-ordered list of
records (oldest first, so FIFO selection is list order) plus a fresh-id
counter. -/
structure Store where
  records : List MemoryRecord
  nextId : Nat
  deriving DecidableEq, Repr

/-- The empty initial store. -/
def Store.init : Store := { records := [], nextId := 0 }

/-- Modelled from the spec: the LLM collaborator of section 6, reduced to the
three synthesis calls the summarization ladder makes; outputs are opaque
text. -/
structure LLM where
  synthShort : List MemoryRecord → String
  synthMid : List MemoryRecord → String
  synthLong : Option MemoryRecord → MemoryRecord → String

/-- Boolean test: record `r` is a pending (unconsumed) record of category `c`
at tier `t`. -/
def isPending (c : Category) (t : Tier) (r : MemoryRecord) : Bool :=
  decide (r.category = c) && decide (r.tier = t) && !r.consumed

/-- The pending (unconsumed) records of a category at a tier, oldest first. -/
def Store.pending (s : Store) (c : Category) (t : Tier) : List MemoryRecord :=
  s.records.filter (isPending c t)

/-- Mark a single record consumed when its id is among `ids`. -/
def markOne (ids : List Nat) (r : MemoryRecord) : MemoryRecord :=
  if r.id ∈ ids then { r with consumed := true } else r

/-- Modelled from the spec: the store operation markConsumed(ids) of
section 4.4. -/
def markConsumed (ids : List Nat) (rs : List MemoryRecord) : List MemoryRecord :=
  rs.map (markOne ids)

/-- Clear the active flag of the record with id `i`. -/
def inactivateOne (i : Nat) (r : MemoryRecord) : MemoryRecord :=
  if r.id = i then { r with active := false } else r

/-- Modelled from the spec: the store operation setInactive(id) of
section 4.4. -/
def setInactive (i : Nat) (rs : List MemoryRecord) : List MemoryRecord :=
  rs.map (inactivateOne i)

/-- The active long-tier records of a category, oldest first. -/
def Store.activeLong (s : Store) (c : Category) : List MemoryRecord :=
  s.records.filter (fun r => decide (r.tier = Tier.long) && r.active && decide (r.category = c))

/-- How many active long-tier records a category has. -/
def activeLongCount (s : Store) (c : Category) : Nat :=
  s.records.countP (fun r => decide (r.tier = Tier.long) && r.active && decide (r.category = c))

/-- How many records of tier `t` a category has (active or not). -/
def tierCount (s : Store) (t : Tier) (c : Category) : Nat :=
  s.records.countP (fun r => decide (r.tier = t) && decide (r.category = c))

/-- How many records of tier `t` list id `i` among their consolidation
inputs. -/
def refCount (t : Tier) (rs : List MemoryRecord) (i : Nat) : Nat :=
  rs.countP (fun r => decide (r.tier = t) && decide (i ∈ r.consolidatedFrom))

/-! ## Memory subsystem operations (modelled from the spec) -/

/-- Modelled from the spec: the Learning Extractor writes one raw candidate
record into the store (section 4.2); the extractor code is not under src/. -/
def extractRaw (c : Category) (text : String) (s : Store) : Store :=
  { records := s.records ++
      [{ id := s.nextId, category := c, tier := Tier.raw, text := text,
         consolidatedFrom := [], createdAt := s.nextId, active := true, consumed := false }],
    nextId := s.nextId + 1 }

/-- The short summary record synthesized over `inputs`. -/
def shortSummary (llm : LLM) (c : Category) (inputs : List MemoryRecord) (s : Store) :
    MemoryRecord :=
  { id := s.nextId, category := c, tier := Tier.short, text := llm.synthShort inputs,
    consolidatedFrom := inputs.map (fun r => r.id), createdAt := s.nextId,
    active := true, consumed := false }

/-- Modelled from the spec: one short-tier consolidation transaction of the
Summarization Ladder (section 4.3) — write the short summary whose
consolidatedFrom is the input ids and mark those inputs consumed, atomically
in one store transition (section 4.4: applied together or not at all). -/
def produceShort (llm : LLM) (c : Category) (inputs : List MemoryRecord) (s : Store) : Store :=
  { records := markConsumed (inputs.map (fun r => r.id)) s.records ++
      [shortSummary llm c inputs s],
    nextId := s.nextId + 1 }

/-- Modelled from the spec: threshold short-tier consolidation — when at least
5 unconsumed raw records exist, consolidate the 5 oldest (FIFO). -/
def consolidateShort (llm : LLM) (c : Category) (s : Store) : Store :=
  let pend := s.pending c Tier.raw
  if 5 ≤ pend.length then produceShort llm c (pend.take 5) s else s

/-- Modelled from the spec: session-boundary force-elevation of 1 to 4 pending
unconsumed raw records into one short summary (section 4.3). -/
def forceConsolidateShort (llm : LLM) (c : Category) (s : Store) : Store :=
  let pend := s.pending c Tier.raw
  if 1 ≤ pend.length ∧ pend.length ≤ 4 then produceShort llm c pend s else s

/-- Modelled from the spec: the long-summary merge of section 4.3 — merge the
new mid summary with the current active long summary (if any); the previous
long record is set inactive and the new long record's consolidatedFrom is the
previous long id (if any) together with the new mid id. -/
def mergeLong (llm : LLM) (c : Category) (mid : MemoryRecord) (s : Store) : Store :=
  match (s.activeLong c).head? with
  | some p =>
    { records := setInactive p.id s.records ++
        [{ id := s.nextId, category := c, tier := Tier.long, text := llm.synthLong (some p) mid,
           consolidatedFrom := [p.id, mid.id], createdAt := s.nextId,
           active := true, consumed := false }],
      nextId := s.nextId + 1 }
  | none =>
    { records := s.records ++
        [{ id := s.nextId, category := c, tier := Tier.long, text := llm.synthLong none mid,
           consolidatedFrom := [mid.id], createdAt := s.nextId,
           active := true, consumed := false }],
      nextId := s.nextId + 1 }

/-- The mid summary record synthesized over `inputs`. -/
def midSummary (llm : LLM) (c : Category) (inputs : List MemoryRecord) (s : Store) :
    MemoryRecord :=
  { id := s.nextId, category := c, tier := Tier.mid, text := llm.synthMid inputs,
    consolidatedFrom := inputs.map (fun r => r.id), createdAt := s.nextId,
    active := true, consumed := false }

/-- The store transition that writes the mid summary over `inputs` and marks
those input short summaries consumed, atomically in one transition. -/
def midWrite (llm : LLM) (c : Category) (inputs : List MemoryRecord) (s : Store) : Store :=
  { records := markConsumed (inputs.map (fun r => r.id)) s.records ++
      [midSummary llm c inputs s],
    nextId := s.nextId + 1 }

/-- Modelled from the spec: one mid-tier consolidation transaction — write the
mid summary over the input short summaries and mark them consumed, then,
because every new mid summary immediately triggers the long merge
(section 4.3), merge it into the long tier. -/
def produceMid (llm : LLM) (c : Category) (inputs : List MemoryRecord) (s : Store) : Store :=
  mergeLong llm c (midSummary llm c inputs s) (midWrite llm c inputs s)

/-- Modelled from the spec: threshold mid-tier consolidation — when at least 3
unconsumed short summaries exist, consolidate the 3 oldest. -/
def consolidateMid (llm : LLM) (c : Category) (s : Store) : Store :=
  let pend := s.pending c Tier.short
  if 3 ≤ pend.length then produceMid llm c (pend.take 3) s else s

/-- Modelled from the spec: session-boundary force-elevation of 1 to 2 pending
unconsumed short summaries into one mid summary (section 4.3). -/
def forceConsolidateMid (llm : LLM) (c : Category) (s : Store) : Store :=
  let pend := s.pending c Tier.short
  if 1 ≤ pend.length ∧ pend.length ≤ 2 then produceMid llm c pend s else s

/-- The operations that write to a category's tier chain; consolidation cycles
are the only writers (spec section 5), serialized per category by the
scheduler's lease, so a history is a sequence of these operations. -/
inductive Op where
  | extract (c : Category) (text : String)
  | consShort (c : Category)
  | consMid (c : Category)
  | forceShort (c : Category)
  | forceMid (c : Category)

/-- Apply one serialized memory-subsystem operation to the store. -/
def applyOp (llm : LLM) (op : Op) (s : Store) : Store :=
  match op with
  | Op.extract c text => extractRaw c text s
  | Op.consShort c => consolidateShort llm c s
  | Op.consMid c => consolidateMid llm c s
  | Op.forceShort c => forceConsolidateShort llm c s
  | Op.forceMid c => forceConsolidateMid llm c s

/-- The error taxonomy of spec section 7 that the memory subsystem can raise. -/
inductive MemError where
  | sourceUnavailable
  | extractionFailed
  | storeUnavailable
  deriving DecidableEq, Repr

/-- Modelled from the spec: a store-availability-aware step — on connectivity
loss the operation fails with StoreUnavailable and no write is applied at all
(section 4.4: no write is partially applied). -/
def applyOpE (llm : LLM) (avail : Bool) (op : Op) (s : Store) : Except MemError Store :=
  if avail then Except.ok (applyOp llm op s) else Except.error MemError.storeUnavailable

/-- The store states reachable from the empty store by serialized
memory-subsystem operations. -/
inductive Reachable (llm : LLM) : Store → Prop where
  | init : Reachable llm Store.init
  | step (op : Op) {s : Store} : Reachable llm s → Reachable llm (applyOp llm op s)

/-! ## Retrieval engine (modelled from the spec) -/

/-- Modelled from the spec: the five non-user categories retrieval always
queries; the retrieval engine code is not under src/. -/
def fixedCategories : List Category :=
  [Category.worldKnowledge, Category.cryptoEcosystem, Category.selfReflection,
   Category.primaryPost, Category.generatedMedia]

/-- Modelled from the spec: the per-call fan-out list — one similarity query
per category, the user-specific category scoped to the supplied user ids
(section 4.5). -/
def queryCategories (userIds : List Nat) : List Category :=
  fixedCategories ++ userIds.map Category.userSpecific

/-- Modelled from the spec: the retrieval fan-out and merge of section 4.5.
The search collaborator returns `none` for a category on timeout or error; a
failing category is omitted from the result map rather than failing the whole
call, and each succeeding category's ranked results are capped at topK. -/
def retrieve (search : Category → Option (List String)) (topK : Nat)
    (cats : List Category) : List (Category × List String) :=
  cats.filterMap (fun c => (search c).map (fun res => (c, res.take topK)))

/-- Modelled from the spec: retrieveContext as exposed to the agent loop
(section 6), fanning out over the fixed taxonomy plus the supplied user
ids. -/
def retrieveContext (search : Category → Option (List String)) (topK : Nat)
    (userIds : List Nat) : List (Category × List String) :=
  retrieve search topK (queryCategories userIds)

/-! ## The agent loop around the memory subsystem (src/index.ts) -/

/-- Observable calls the startAISystem loop makes around a session boundary
(src/index.ts lines 151-171). -/
inductive LoopEvent where
  | logMemoryStart
  | extractLearnings
  | clearShortTermHistory
  | logMemoryComplete
  | logMemoryError
  | setStatusInactive
  | idleSleep
  | setStatusActive
  deriving DecidableEq, Repr

/-- Embedding of src/index.ts lines 151-159: the try block awaits
extractAndSaveLearnings(sessionId) and only then awaits
clearShortTermHistory(); any error from either is caught by the catch block
and logged.  `extractResult` and `clearResult` are the outcomes of the two
awaited calls. -/
def memoryProcessing (extractResult clearResult : Except MemError Unit) : List LoopEvent :=
  match extractResult with
  | Except.error _ =>
      [LoopEvent.logMemoryStart, LoopEvent.extractLearnings, LoopEvent.logMemoryError]
  | Except.ok _ =>
      match clearResult with
      | Except.error _ =>
          [LoopEvent.logMemoryStart, LoopEvent.extractLearnings,
           LoopEvent.clearShortTermHistory, LoopEvent.logMemoryError]
      | Except.ok _ =>
          [LoopEvent.logMemoryStart, LoopEvent.extractLearnings,
           LoopEvent.clearShortTermHistory, LoopEvent.logMemoryComplete]

/-- Embedding of src/index.ts lines 151-171: the memory-processing block is
followed unconditionally by entering idle mode and resuming active mode, after
which the outer while loop iterates again. -/
def sessionBoundary (extractResult clearResult : Except MemError Unit) : List LoopEvent :=
  memoryProcessing extractResult clearResult ++
    [LoopEvent.setStatusInactive, LoopEvent.idleSleep, LoopEvent.setStatusActive]

/-- The spec's claim of section 5, stated over the loop embedding: the loop is
never blocked waiting on consolidation — it is fire-and-forget, so the events
the loop emits after triggering consolidation cannot depend on the
consolidation outcome. -/
def loopNeverBlocksOnConsolidation : Prop :=
  ∀ er₁ er₂ cr : Except MemError Unit,
    (sessionBoundary er₁ cr).drop 2 = (sessionBoundary er₂ cr).drop 2

/-! ## replyToTweet (src/twitter/functions/replyToTweet.ts) -/

/-- The target tweet as fetched by scraper.getTweet: only the fields
replyToTweet inspects. -/
structure Tweet where
  username : Option String
  text : Option String
  deriving DecidableEq, Repr

/-- The result record replyToTweet returns. -/
structure ReplyResult where
  success : Bool
  message : String
  tweetId : Option String
  deriving DecidableEq, Repr

/-- Side-effecting collaborator calls replyToTweet can make, in order. -/
inductive TwitterEffect where
  | fetchTweet
  | prepareMedia
  | likeTweet
  | sendTweet
  | logTweet
  | logInteraction
  deriving DecidableEq, Repr

/-- The environment replyToTweet runs against: the answer of
hasAlreadyActioned(replyToTweetId, 'reply'), the fetched target tweet, the
rest_id parsed from the sendTweet response, and the account lookup result. -/
structure ReplyEnv where
  hasAlreadyActioned : Bool
  targetTweet : Option Tweet
  sendTweetId : Option String
  userAccounts : Option Nat
  deriving DecidableEq, Repr

/-- Embedding of replyToTweet (src/twitter/functions/replyToTweet.ts): returns
the ReplyResult together with the ordered list of side-effecting collaborator
calls it performed.  The already-replied check happens first and returns
before any other call; otherwise the tweet is fetched, media prepared when
given, the tweet liked, the reply sent, the reply logged, and the interaction
logged once the user account resolves. -/
def replyToTweet (env : ReplyEnv) (replyToTweetId text : String)
    (mediaUrls : Option (List String)) : ReplyResult × List TwitterEffect :=
  if env.hasAlreadyActioned then
    ({ success := false, message := "Already replied to this tweet", tweetId := none }, [])
  else
    match env.targetTweet with
    | none =>
        ({ success := false, message := "Failed to fetch target tweet", tweetId := none },
         [TwitterEffect.fetchTweet])
    | some t =>
        match t.username with
        | none =>
            ({ success := false, message := "Failed to fetch target tweet", tweetId := none },
             [TwitterEffect.fetchTweet])
        | some _ =>
            let effs :=
              [TwitterEffect.fetchTweet] ++
                (if mediaUrls.isSome then [TwitterEffect.prepareMedia] else []) ++
                [TwitterEffect.likeTweet, TwitterEffect.sendTweet]
            match env.sendTweetId with
            | none =>
                ({ success := false,
                   message := "Failed to retrieve reply tweet ID from response",
                   tweetId := none }, effs)
            | some rid =>
                match env.userAccounts with
                | none =>
                    ({ success := false, message := "Failed to process user account",
                       tweetId := none }, effs ++ [TwitterEffect.logTweet])
                | some _ =>
                    ({ success := true, message := "Successfully replied to tweet",
                       tweetId := some rid },
                     effs ++ [TwitterEffect.logTweet, TwitterEffect.logInteraction])

/-! ## Concrete instances used by the witnesses -/

/-- A concrete LLM collaborator with constant outputs. -/
def llm0 : LLM :=
  { synthShort := fun _ => "s", synthMid := fun _ => "m", synthLong := fun _ _ => "l" }

/-- Apply a list of operations in order, first operation first. -/
def applyOps (llm : LLM) (ops : List Op) (s : Store) : Store :=
  ops.foldl (fun st op => applyOp llm op st) s

/-- Five raw world-knowledge extractions. -/
def extractOps5 : List Op :=
  [Op.extract Category.worldKnowledge "a", Op.extract Category.worldKnowledge "b",
   Op.extract Category.worldKnowledge "c", Op.extract Category.worldKnowledge "d",
   Op.extract Category.worldKnowledge "e"]

/-- A store holding five pending raw world-knowledge records. -/
def store5 : Store := applyOps llm0 extractOps5 Store.init

/-- store5 after one short-tier consolidation: the five raws are consumed by
one short summary. -/
def store5c : Store := applyOp llm0 (Op.consShort Category.worldKnowledge) store5

/-- A store holding one pending raw record, for the force-elevation witness. -/
def store1 : Store := extractRaw Category.worldKnowledge "a" Store.init

/-- The first raw record extracted into store5, as it sits in store5. -/
def rec0 : MemoryRecord :=
  { id := 0, category := Category.worldKnowledge, tier := Tier.raw, text := "a",
    consolidatedFrom := [], createdAt := 0, active := true, consumed := false }

/-- A concrete already-replied environment for the replyToTweet witness. -/
def env0 : ReplyEnv :=
  { hasAlreadyActioned := true, targetTweet := some { username := some "u", text := some "t" },
    sendTweetId := some "9", userAccounts := some 1 }

/-! ## Helper lemmas about the store operations -/

theorem markOne_id (ids : List Nat) (r : MemoryRecord) : (markOne ids r).id = r.id := by
  unfold markOne; split <;> rfl

theorem markOne_tier (ids : List Nat) (r : MemoryRecord) : (markOne ids r).tier = r.tier := by
  unfold markOne; split <;> rfl

theorem markOne_category (ids : List Nat) (r : MemoryRecord) :
    (markOne ids r).category = r.category := by
  unfold markOne; split <;> rfl

theorem markOne_consolidatedFrom (ids : List Nat) (r : MemoryRecord) :
    (markOne ids r).consolidatedFrom = r.consolidatedFrom := by
  unfold markOne; split <;> rfl

theorem markOne_active (ids : List Nat) (r : MemoryRecord) :
    (markOne ids r).active = r.active := by
  unfold markOne; split <;> rfl

theorem markOne_consumed (ids : List Nat) (r : MemoryRecord) :
    (markOne ids r).consumed = (r.consumed || decide (r.id ∈ ids)) := by
  unfold markOne; split <;> simp_all

theorem markOne_of_not_mem (ids : List Nat) (r : MemoryRecord) (h : r.id ∉ ids) :
    markOne ids r = r := by
  unfold markOne; simp [h]

theorem inactivateOne_id (i : Nat) (r : MemoryRecord) : (inactivateOne i r).id = r.id := by
  unfold inactivateOne; split <;> rfl

theorem inactivateOne_tier (i : Nat) (r : MemoryRecord) :
    (inactivateOne i r).tier = r.tier := by
  unfold inactivateOne; split <;> rfl

theorem inactivateOne_category (i : Nat) (r : MemoryRecord) :
    (inactivateOne i r).category = r.category := by
  unfold inactivateOne; split <;> rfl

theorem inactivateOne_consolidatedFrom (i : Nat) (r : MemoryRecord) :
    (inactivateOne i r).consolidatedFrom = r.consolidatedFrom := by
  unfold inactivateOne; split <;> rfl

theorem inactivateOne_consumed (i : Nat) (r : MemoryRecord) :
    (inactivateOne i r).consumed = r.consumed := by
  unfold inactivateOne; split <;> rfl

theorem inactivateOne_of_ne (i : Nat) (r : MemoryRecord) (h : r.id ≠ i) :
    inactivateOne i r = r := by
  unfold inactivateOne; simp [h]

theorem mem_pending (s : Store) (c : Category) (t : Tier) (r : MemoryRecord) :
    r ∈ s.pending c t ↔
      r ∈ s.records ∧ r.category = c ∧ r.tier = t ∧ r.consumed = false := by
  unfold Store.pending isPending
  simp [List.mem_filter, and_assoc]

theorem pending_sublist (s : Store) (c : Category) (t : Tier) :
    List.Sublist (s.pending c t) s.records :=
  List.filter_sublist s.records

theorem refCount_append (t : Tier) (rs xs : List MemoryRecord) (i : Nat) :
    refCount t (rs ++ xs) i = refCount t rs i + refCount t xs i := by
  unfold refCount; exact List.countP_append _ rs xs

theorem refCount_singleton (t : Tier) (r : MemoryRecord) (i : Nat) :
    refCount t [r] i =
      if r.tier = t ∧ i ∈ r.consolidatedFrom then 1 else 0 := by
  unfold refCount
  by_cases h1 : r.tier = t <;> by_cases h2 : i ∈ r.consolidatedFrom <;>
    simp [List.countP, List.countP.go, h1, h2]

theorem refCount_markConsumed (t : Tier) (ids : List Nat) (rs : List MemoryRecord) (i : Nat) :
    refCount t (markConsumed ids rs) i = refCount t rs i := by
  unfold refCount markConsumed
  rw [List.countP_map]
  refine List.countP_congr (fun r _ => ?_)
  simp [Function.comp, markOne_tier, markOne_consolidatedFrom]

theorem refCount_setInactive (t : Tier) (j : Nat) (rs : List MemoryRecord) (i : Nat) :
    refCount t (setInactive j rs) i = refCount t rs i := by
  unfold refCount setInactive
  rw [List.countP_map]
  refine List.countP_congr (fun r _ => ?_)
  simp [Function.comp, inactivateOne_tier, inactivateOne_consolidatedFrom]

theorem refCount_eq_zero_of_bound (t : Tier) (rs : List MemoryRecord) (n : Nat)
    (h : ∀ r ∈ rs, ∀ j ∈ r.consolidatedFrom, j < n) : refCount t rs n = 0 := by
  unfold refCount
  rw [List.countP_eq_zero]
  intro r hr hc
  simp only [Bool.and_eq_true, decide_eq_true_eq] at hc
  exact absurd (h r hr n hc.2) (lt_irrefl n)

theorem mem_markConsumed (ids : List Nat) (rs : List MemoryRecord) (r' : MemoryRecord) :
    r' ∈ markConsumed ids rs ↔ ∃ r ∈ rs, markOne ids r = r' := by
  unfold markConsumed; exact List.mem_map

theorem mem_setInactive (i : Nat) (rs : List MemoryRecord) (r' : MemoryRecord) :
    r' ∈ setInactive i rs ↔ ∃ r ∈ rs, inactivateOne i r = r' := by
  unfold setInactive; exact List.mem_map

theorem map_id_markConsumed (ids : List Nat) (rs : List MemoryRecord) :
    (markConsumed ids rs).map (fun r => r.id) = rs.map (fun r => r.id) := by
  unfold markConsumed
  rw [List.map_map]
  refine List.map_congr_left (fun r _ => ?_)
  simp [Function.comp, markOne_id]

theorem map_id_setInactive (i : Nat) (rs : List MemoryRecord) :
    (setInactive i rs).map (fun r => r.id) = rs.map (fun r => r.id) := by
  unfold setInactive
  rw [List.map_map]
  refine List.map_congr_left (fun r _ => ?_)
  simp [Function.comp, inactivateOne_id]

theorem ids_nodup_of_sublist {rs' rs : List MemoryRecord} (h : List.Sublist rs' rs)
    (hn : (rs.map (fun r => r.id)).Nodup) : (rs'.map (fun r => r.id)).Nodup :=
  hn.sublist (h.map _)

theorem eq_of_mem_of_id_eq {rs : List MemoryRecord}
    (hn : (rs.map (fun r => r.id)).Nodup) {a b : MemoryRecord}
    (ha : a ∈ rs) (hb : b ∈ rs) (he : a.id = b.id) : a = b :=
  List.inj_on_of_nodup_map hn ha hb he

theorem mem_eq_of_length_le_one {α : Type} {l : List α} (h : l.length ≤ 1)
    {a b : α} (ha : a ∈ l) (hb : b ∈ l) : a = b := by
  match l, h with
  | [], _ => cases ha
  | [x], _ =>
    cases List.mem_singleton.mp ha
    cases List.mem_singleton.mp hb
    rfl

theorem tierCount_count (s : Store) (t : Tier) (c : Category) :
    tierCount s t c =
      s.records.countP (fun r => decide (r.tier = t) && decide (r.category = c)) := rfl

theorem countP_tier_markConsumed (t : Tier) (c : Category) (ids : List Nat)
    (rs : List MemoryRecord) :
    (markConsumed ids rs).countP (fun r => decide (r.tier = t) && decide (r.category = c)) =
      rs.countP (fun r => decide (r.tier = t) && decide (r.category = c)) := by
  unfold markConsumed
  rw [List.countP_map]
  refine List.countP_congr (fun r _ => ?_)
  simp [Function.comp, markOne_tier, markOne_category]

theorem countP_tier_setInactive (t : Tier) (c : Category) (i : Nat)
    (rs : List MemoryRecord) :
    (setInactive i rs).countP (fun r => decide (r.tier = t) && decide (r.category = c)) =
      rs.countP (fun r => decide (r.tier = t) && decide (r.category = c)) := by
  unfold setInactive
  rw [List.countP_map]
  refine List.countP_congr (fun r _ => ?_)
  simp [Function.comp, inactivateOne_tier, inactivateOne_category]

/-! ## The store invariant -/

/-- The store invariant maintained by the serialized memory-subsystem
operations: ids are distinct and below the fresh-id counter, consolidation
inputs are existing ids, every raw record is referenced by short summaries
exactly as often as its consumed flag says (once when consumed, never when
unconsumed), likewise every short summary with respect to mid summaries, and
every category has at most one active long record. -/
structure StoreInv (s : Store) : Prop where
  nodup : (s.records.map (fun r => r.id)).Nodup
  idBound : ∀ r ∈ s.records, r.id < s.nextId
  refBound : ∀ r ∈ s.records, ∀ i ∈ r.consolidatedFrom, i < s.nextId
  rawOnce : ∀ r ∈ s.records, r.tier = Tier.raw →
      refCount Tier.short s.records r.id = (if r.consumed then 1 else 0)
  shortOnce : ∀ r ∈ s.records, r.tier = Tier.short →
      refCount Tier.mid s.records r.id = (if r.consumed then 1 else 0)
  longUnique : ∀ c : Category, activeLongCount s c ≤ 1

theorem inv_init : StoreInv Store.init := by
  constructor <;> simp [Store.init, activeLongCount]

theorem inv_extractRaw (c : Category) (text : String) (s : Store) (h : StoreInv s) :
    StoreInv (extractRaw c text s) := by
  obtain ⟨hnodup, hidB, hrefB, hraw, hshort, hlong⟩ := h
  unfold extractRaw
  constructor
  case nodup =>
    simp only [List.map_append, List.map_cons, List.map_nil]
    rw [List.nodup_append]
    refine ⟨hnodup, List.nodup_singleton _, ?_⟩
    intro a ha hb
    simp only [List.mem_singleton] at hb
    subst hb
    obtain ⟨r, hr, hrid⟩ := List.mem_map.mp ha
    exact absurd (hrid ▸ hidB r hr) (lt_irrefl _)
  case idBound =>
    intro r hr
    rcases List.mem_append.mp hr with h0 | h0
    · exact Nat.lt_succ_of_lt (hidB r h0)
    · simp only [List.mem_singleton] at h0
      subst h0
      exact Nat.lt_succ_self _
  case refBound =>
    intro r hr i hi
    rcases List.mem_append.mp hr with h0 | h0
    · exact Nat.lt_succ_of_lt (hrefB r h0 i hi)
    · simp only [List.mem_singleton] at h0
      subst h0
      simp at hi
  case rawOnce =>
    intro r hr ht
    have hnew : refCount Tier.short s.records s.nextId = 0 :=
      refCount_eq_zero_of_bound _ _ _ hrefB
    rcases List.mem_append.mp hr with h0 | h0
    · rw [refCount_append, refCount_singleton]
      simp only [and_imp]
      rw [if_neg (by rintro ⟨h1, _⟩; cases h1)]
      simpa using hraw r h0 ht
    · simp only [List.mem_singleton] at h0
      subst h0
      rw [refCount_append, refCount_singleton]
      simp only
      rw [if_neg (by rintro ⟨h1, _⟩; cases h1)]
      simpa using hnew
  case shortOnce =>
    intro r hr ht
    have hnew : refCount Tier.mid s.records s.nextId = 0 :=
      refCount_eq_zero_of_bound _ _ _ hrefB
    rcases List.mem_append.mp hr with h0 | h0
    · rw [refCount_append, refCount_singleton]
      rw [if_neg (by rintro ⟨h1, _⟩; cases h1)]
      simpa using hshort r h0 ht
    · simp only [List.mem_singleton] at h0
      subst h0
      cases ht
  case longUnique =>
    intro c'
    unfold activeLongCount at hlong ⊢
    simp only [List.countP_append]
    have : List.countP
        (fun r => decide (r.tier = Tier.long) && r.active && decide (r.category = c'))
        [({ id := s.nextId, category := c, tier := Tier.raw, text := text,
            consolidatedFrom := [], createdAt := s.nextId, active := true,
            consumed := false } : MemoryRecord)] =
        0 := by
      simp [List.countP, List.countP.go]
    rw [this]
    simpa using hlong c'

theorem countP_long_markConsumed (c : Category) (ids : List Nat) (rs : List MemoryRecord) :
    (markConsumed ids rs).countP
        (fun r => decide (r.tier = Tier.long) && r.active && decide (r.category = c)) =
      rs.countP
        (fun r => decide (r.tier = Tier.long) && r.active && decide (r.category = c)) := by
  unfold markConsumed
  rw [List.countP_map]
  refine List.countP_congr (fun r _ => ?_)
  simp [Function.comp, markOne_tier, markOne_active, markOne_category]

theorem inv_produceShort (llm : LLM) (c : Category) (inputs : List MemoryRecord) (s : Store)
    (hsub : List.Sublist inputs (s.pending c Tier.raw)) (h : StoreInv s) :
    StoreInv (produceShort llm c inputs s) := by
  obtain ⟨hnodup, hidB, hrefB, hraw, hshort, hlong⟩ := h
  have hin : ∀ r ∈ inputs,
      r ∈ s.records ∧ r.category = c ∧ r.tier = Tier.raw ∧ r.consumed = false := by
    intro r hr
    exact (mem_pending s c Tier.raw r).mp (hsub.subset hr)
  have hmem_ids : ∀ i ∈ inputs.map (fun r => r.id), ∃ u ∈ inputs, u.id = i :=
    fun i hi => List.mem_map.mp hi
  have hids_lt : ∀ i ∈ inputs.map (fun r => r.id), i < s.nextId := by
    intro i hi
    obtain ⟨u, hu, hui⟩ := hmem_ids i hi
    exact hui ▸ hidB u (hin u hu).1
  have hsummary_tier : (shortSummary llm c inputs s).tier = Tier.short := rfl
  have hmem' : ∀ r' : MemoryRecord,
      r' ∈ (produceShort llm c inputs s).records ↔
        (∃ r₀ ∈ s.records, markOne (inputs.map (fun r => r.id)) r₀ = r') ∨
          r' = shortSummary llm c inputs s := by
    intro r'
    unfold produceShort
    rw [List.mem_append, mem_markConsumed, List.mem_singleton]
  constructor
  case nodup =>
    show ((markConsumed (inputs.map (fun r => r.id)) s.records ++
        [shortSummary llm c inputs s]).map (fun r => r.id)).Nodup
    rw [List.map_append, map_id_markConsumed]
    rw [List.nodup_append]
    refine ⟨hnodup, List.nodup_singleton _, ?_⟩
    intro a ha hb
    simp only [List.map_cons, List.map_nil, List.mem_singleton] at hb
    subst hb
    obtain ⟨r, hr, hrid⟩ := List.mem_map.mp ha
    have : (shortSummary llm c inputs s).id = s.nextId := rfl
    rw [this] at hrid
    exact absurd (hrid ▸ hidB r hr) (lt_irrefl _)
  case idBound =>
    intro r' hr'
    rcases (hmem' r').mp hr' with ⟨r₀, h0, he⟩ | he
    · rw [← he, markOne_id]
      exact Nat.lt_succ_of_lt (hidB r₀ h0)
    · rw [he]
      exact Nat.lt_succ_self _
  case refBound =>
    intro r' hr' i hi
    rcases (hmem' r').mp hr' with ⟨r₀, h0, he⟩ | he
    · rw [← he, markOne_consolidatedFrom] at hi
      exact Nat.lt_succ_of_lt (hrefB r₀ h0 i hi)
    · rw [he] at hi
      have : (shortSummary llm c inputs s).consolidatedFrom = inputs.map (fun r => r.id) := rfl
      rw [this] at hi
      exact Nat.lt_succ_of_lt (hids_lt i hi)
  case rawOnce =>
    intro r' hr' ht
    have hrs : (produceShort llm c inputs s).records =
        markConsumed (inputs.map (fun r => r.id)) s.records ++
          [shortSummary llm c inputs s] := rfl
    rcases (hmem' r').mp hr' with ⟨r₀, h0, he⟩ | he
    · rw [hrs, refCount_append, refCount_markConsumed, refCount_singleton]
      rw [← he, markOne_id]
      have htier0 : r₀.tier = Tier.raw := by rw [← markOne_tier (inputs.map (fun r => r.id)) r₀, he]; exact ht
      by_cases hmem : r₀.id ∈ inputs.map (fun r => r.id)
      · obtain ⟨u, hu, hui⟩ := hmem_ids _ hmem
        have hu' := hin u hu
        have hur : u = r₀ := eq_of_mem_of_id_eq hnodup hu'.1 h0 hui
        subst hur
        rw [markOne_consumed, hraw u h0 htier0, hu'.2.2.2]
        simp [shortSummary, hmem]
      · rw [markOne_of_not_mem _ _ hmem]
        rw [if_neg (by
          rintro ⟨-, hc⟩
          exact hmem hc)]
        rw [Nat.add_zero]
        exact hraw r₀ h0 htier0
    · rw [he] at ht
      rw [hsummary_tier] at ht
      cases ht
  case shortOnce =>
    intro r' hr' ht
    have hrs : (produceShort llm c inputs s).records =
        markConsumed (inputs.map (fun r => r.id)) s.records ++
          [shortSummary llm c inputs s] := rfl
    rcases (hmem' r').mp hr' with ⟨r₀, h0, he⟩ | he
    · have htier0 : r₀.tier = Tier.short := by
        rw [← markOne_tier (inputs.map (fun r => r.id)) r₀, he]; exact ht
      have hnotmem : r₀.id ∉ inputs.map (fun r => r.id) := by
        intro hmem
        obtain ⟨u, hu, hui⟩ := hmem_ids _ hmem
        have hu' := hin u hu
        have : u = r₀ := eq_of_mem_of_id_eq hnodup hu'.1 h0 hui
        subst this
        rw [hu'.2.2.1] at htier0
        cases htier0
      have he' : r' = r₀ := by rw [← he, markOne_of_not_mem _ _ hnotmem]
      rw [he', hrs, refCount_append, refCount_markConsumed, refCount_singleton]
      rw [if_neg (by rintro ⟨hts, -⟩; rw [hsummary_tier] at hts; cases hts)]
      rw [Nat.add_zero]
      exact hshort r₀ h0 htier0
    · subst he
      have hcons : (shortSummary llm c inputs s).consumed = false := rfl
      have hid : (shortSummary llm c inputs s).id = s.nextId := rfl
      rw [hcons, hid, if_neg (by simp)]
      have hrs : (produceShort llm c inputs s).records =
          markConsumed (inputs.map (fun r => r.id)) s.records ++
            [shortSummary llm c inputs s] := rfl
      rw [hrs, refCount_append, refCount_markConsumed, refCount_singleton]
      rw [refCount_eq_zero_of_bound _ _ _ hrefB]
      rw [if_neg (by
        rintro ⟨-, hc⟩
        have : (shortSummary llm c inputs s).consolidatedFrom = inputs.map (fun r => r.id) := rfl
        rw [this] at hc
        exact absurd (hids_lt _ hc) (lt_irrefl _))]
  case longUnique =>
    intro c'
    show List.countP _ (markConsumed (inputs.map (fun r => r.id)) s.records ++
        [shortSummary llm c inputs s]) ≤ 1
    rw [List.countP_append, countP_long_markConsumed]
    have : List.countP
        (fun r => decide (r.tier = Tier.long) && r.active && decide (r.category = c'))
        [shortSummary llm c inputs s] = 0 := by
      simp [List.countP, List.countP.go, shortSummary]
    rw [this, Nat.add_zero]
    exact hlong c'

theorem inv_midWrite (llm : LLM) (c : Category) (inputs : List MemoryRecord) (s : Store)
    (hsub : List.Sublist inputs (s.pending c Tier.short)) (h : StoreInv s) :
    StoreInv (midWrite llm c inputs s) := by
  obtain ⟨hnodup, hidB, hrefB, hraw, hshort, hlong⟩ := h
  have hin : ∀ r ∈ inputs,
      r ∈ s.records ∧ r.category = c ∧ r.tier = Tier.short ∧ r.consumed = false := by
    intro r hr
    exact (mem_pending s c Tier.short r).mp (hsub.subset hr)
  have hmem_ids : ∀ i ∈ inputs.map (fun r => r.id), ∃ u ∈ inputs, u.id = i :=
    fun i hi => List.mem_map.mp hi
  have hids_lt : ∀ i ∈ inputs.map (fun r => r.id), i < s.nextId := by
    intro i hi
    obtain ⟨u, hu, hui⟩ := hmem_ids i hi
    exact hui ▸ hidB u (hin u hu).1
  have hsummary_tier : (midSummary llm c inputs s).tier = Tier.mid := rfl
  have hmem' : ∀ r' : MemoryRecord,
      r' ∈ (midWrite llm c inputs s).records ↔
        (∃ r₀ ∈ s.records, markOne (inputs.map (fun r => r.id)) r₀ = r') ∨
          r' = midSummary llm c inputs s := by
    intro r'
    unfold midWrite
    rw [List.mem_append, mem_markConsumed, List.mem_singleton]
  have hrs : (midWrite llm c inputs s).records =
      markConsumed (inputs.map (fun r => r.id)) s.records ++
        [midSummary llm c inputs s] := rfl
  constructor
  case nodup =>
    show ((markConsumed (inputs.map (fun r => r.id)) s.records ++
        [midSummary llm c inputs s]).map (fun r => r.id)).Nodup
    rw [List.map_append, map_id_markConsumed]
    rw [List.nodup_append]
    refine ⟨hnodup, List.nodup_singleton _, ?_⟩
    intro a ha hb
    simp only [List.map_cons, List.map_nil, List.mem_singleton] at hb
    subst hb
    obtain ⟨r, hr, hrid⟩ := List.mem_map.mp ha
    have : (midSummary llm c inputs s).id = s.nextId := rfl
    rw [this] at hrid
    exact absurd (hrid ▸ hidB r hr) (lt_irrefl _)
  case idBound =>
    intro r' hr'
    rcases (hmem' r').mp hr' with ⟨r₀, h0, he⟩ | he
    · rw [← he, markOne_id]
      exact Nat.lt_succ_of_lt (hidB r₀ h0)
    · rw [he]
      exact Nat.lt_succ_self _
  case refBound =>
    intro r' hr' i hi
    rcases (hmem' r').mp hr' with ⟨r₀, h0, he⟩ | he
    · rw [← he, markOne_consolidatedFrom] at hi
      exact Nat.lt_succ_of_lt (hrefB r₀ h0 i hi)
    · rw [he] at hi
      have : (midSummary llm c inputs s).consolidatedFrom = inputs.map (fun r => r.id) := rfl
      rw [this] at hi
      exact Nat.lt_succ_of_lt (hids_lt i hi)
  case rawOnce =>
    intro r' hr' ht
    rcases (hmem' r').mp hr' with ⟨r₀, h0, he⟩ | he
    · have htier0 : r₀.tier = Tier.raw := by
        rw [← markOne_tier (inputs.map (fun r => r.id)) r₀, he]; exact ht
      have hnotmem : r₀.id ∉ inputs.map (fun r => r.id) := by
        intro hmem
        obtain ⟨u, hu, hui⟩ := hmem_ids _ hmem
        have hu' := hin u hu
        have hur : u = r₀ := eq_of_mem_of_id_eq hnodup hu'.1 h0 hui
        subst hur
        rw [hu'.2.2.1] at htier0
        cases htier0
      have he' : r' = r₀ := by rw [← he, markOne_of_not_mem _ _ hnotmem]
      rw [he', hrs, refCount_append, refCount_markConsumed, refCount_singleton]
      rw [if_neg (by rintro ⟨hts, -⟩; rw [hsummary_tier] at hts; cases hts)]
      rw [Nat.add_zero]
      exact hraw r₀ h0 htier0
    · rw [he] at ht
      rw [hsummary_tier] at ht
      cases ht
  case shortOnce =>
    intro r' hr' ht
    rcases (hmem' r').mp hr' with ⟨r₀, h0, he⟩ | he
    · rw [hrs, refCount_append, refCount_markConsumed, refCount_singleton]
      rw [← he, markOne_id]
      have htier0 : r₀.tier = Tier.short := by
        rw [← markOne_tier (inputs.map (fun r => r.id)) r₀, he]; exact ht
      by_cases hmem : r₀.id ∈ inputs.map (fun r => r.id)
      · obtain ⟨u, hu, hui⟩ := hmem_ids _ hmem
        have hu' := hin u hu
        have hur : u = r₀ := eq_of_mem_of_id_eq hnodup hu'.1 h0 hui
        subst hur
        rw [markOne_consumed, hshort u h0 htier0, hu'.2.2.2]
        simp [midSummary, hmem]
      · rw [markOne_of_not_mem _ _ hmem]
        rw [if_neg (by
          rintro ⟨-, hc⟩
          exact hmem hc)]
        rw [Nat.add_zero]
        exact hshort r₀ h0 htier0
    · rw [he] at ht
      rw [hsummary_tier] at ht
      cases ht
  case longUnique =>
    intro c'
    show List.countP _ (markConsumed (inputs.map (fun r => r.id)) s.records ++
        [midSummary llm c inputs s]) ≤ 1
    rw [List.countP_append, countP_long_markConsumed]
    have : List.countP
        (fun r => decide (r.tier = Tier.long) && r.active && decide (r.category = c'))
        [midSummary llm c inputs s] = 0 := by
      simp [List.countP, List.countP.go, midSummary]
    rw [this, Nat.add_zero]
    exact hlong c'

theorem countP_one {α : Type} (p : α → Bool) (a : α) :
    List.countP p [a] = if p a then 1 else 0 := by
  by_cases h : p a = true <;> simp [List.countP, List.countP.go, h]

theorem activeLong_length_eq (s : Store) (c : Category) :
    (s.activeLong c).length = activeLongCount s c := by
  unfold Store.activeLong activeLongCount
  rw [List.countP_eq_length_filter]

theorem mem_activeLong (s : Store) (c : Category) (r : MemoryRecord) :
    r ∈ s.activeLong c ↔
      r ∈ s.records ∧ r.tier = Tier.long ∧ r.active = true ∧ r.category = c := by
  unfold Store.activeLong
  simp [List.mem_filter, and_assoc]

theorem StoreInv.append_fresh_long (s : Store) (x : MemoryRecord) (c : Category)
    (h : StoreInv s)
    (hid : x.id = s.nextId) (htier : x.tier = Tier.long)
    (hcat : x.category = c) (hcf : ∀ i ∈ x.consolidatedFrom, i < s.nextId)
    (hnoactive : s.activeLong c = []) :
    StoreInv { records := s.records ++ [x], nextId := s.nextId + 1 } := by
  obtain ⟨hnodup, hidB, hrefB, hraw, hshort, hlong⟩ := h
  constructor
  case nodup =>
    show ((s.records ++ [x]).map (fun r => r.id)).Nodup
    rw [List.map_append, List.nodup_append]
    refine ⟨hnodup, List.nodup_singleton _, ?_⟩
    intro a ha hb
    simp only [List.map_cons, List.map_nil, List.mem_singleton] at hb
    subst hb
    obtain ⟨r, hr, hrid⟩ := List.mem_map.mp ha
    rw [hid] at hrid
    exact absurd (hrid ▸ hidB r hr) (lt_irrefl _)
  case idBound =>
    intro r' hr'
    rcases List.mem_append.mp hr' with h0 | h0
    · exact Nat.lt_succ_of_lt (hidB r' h0)
    · simp only [List.mem_singleton] at h0
      subst h0
      rw [hid]
      exact Nat.lt_succ_self _
  case refBound =>
    intro r' hr' i hi
    rcases List.mem_append.mp hr' with h0 | h0
    · exact Nat.lt_succ_of_lt (hrefB r' h0 i hi)
    · simp only [List.mem_singleton] at h0
      subst h0
      exact Nat.lt_succ_of_lt (hcf i hi)
  case rawOnce =>
    intro r' hr' ht
    rcases List.mem_append.mp hr' with h0 | h0
    · show refCount Tier.short (s.records ++ [x]) r'.id = _
      rw [refCount_append, refCount_singleton]
      rw [if_neg (by rintro ⟨hts, -⟩; rw [htier] at hts; cases hts)]
      rw [Nat.add_zero]
      exact hraw r' h0 ht
    · simp only [List.mem_singleton] at h0
      subst h0
      rw [htier] at ht
      cases ht
  case shortOnce =>
    intro r' hr' ht
    rcases List.mem_append.mp hr' with h0 | h0
    · show refCount Tier.mid (s.records ++ [x]) r'.id = _
      rw [refCount_append, refCount_singleton]
      rw [if_neg (by rintro ⟨hts, -⟩; rw [htier] at hts; cases hts)]
      rw [Nat.add_zero]
      exact hshort r' h0 ht
    · simp only [List.mem_singleton] at h0
      subst h0
      rw [htier] at ht
      cases ht
  case longUnique =>
    intro c'
    show List.countP _ (s.records ++ [x]) ≤ 1
    rw [List.countP_append, countP_one]
    by_cases hc : c' = c
    · subst hc
      have hzero : List.countP
          (fun r => decide (r.tier = Tier.long) && r.active && decide (r.category = c'))
          s.records = 0 := by
        have := activeLong_length_eq s c'
        rw [hnoactive] at this
        unfold activeLongCount at this
        simp only [List.length_nil] at this
        exact this.symm
      rw [hzero]
      split <;> simp
    · have hxfalse : (decide (x.tier = Tier.long) && x.active && decide (x.category = c')) =
          false := by
        rw [hcat]
        simp [Ne.symm hc]
      rw [hxfalse]
      simp only [Bool.false_eq_true, if_false, Nat.add_zero]
      exact hlong c'

theorem StoreInv.setInactive_append_long (s : Store) (x p : MemoryRecord) (c : Category)
    (h : StoreInv s)
    (hp : p ∈ s.activeLong c)
    (hid : x.id = s.nextId) (htier : x.tier = Tier.long)
    (hcat : x.category = c) (hcf : ∀ i ∈ x.consolidatedFrom, i < s.nextId) :
    StoreInv { records := setInactive p.id s.records ++ [x], nextId := s.nextId + 1 } := by
  obtain ⟨hnodup, hidB, hrefB, hraw, hshort, hlong⟩ := h
  have hmem' : ∀ r' : MemoryRecord,
      r' ∈ setInactive p.id s.records ++ [x] ↔
        (∃ r₀ ∈ s.records, inactivateOne p.id r₀ = r') ∨ r' = x := by
    intro r'
    rw [List.mem_append, mem_setInactive, List.mem_singleton]
  constructor
  case nodup =>
    show ((setInactive p.id s.records ++ [x]).map (fun r => r.id)).Nodup
    rw [List.map_append, map_id_setInactive, List.nodup_append]
    refine ⟨hnodup, List.nodup_singleton _, ?_⟩
    intro a ha hb
    simp only [List.map_cons, List.map_nil, List.mem_singleton] at hb
    subst hb
    obtain ⟨r, hr, hrid⟩ := List.mem_map.mp ha
    rw [hid] at hrid
    exact absurd (hrid ▸ hidB r hr) (lt_irrefl _)
  case idBound =>
    intro r' hr'
    rcases (hmem' r').mp hr' with ⟨r₀, h0, he⟩ | he
    · rw [← he, inactivateOne_id]
      exact Nat.lt_succ_of_lt (hidB r₀ h0)
    · rw [he, hid]
      exact Nat.lt_succ_self _
  case refBound =>
    intro r' hr' i hi
    rcases (hmem' r').mp hr' with ⟨r₀, h0, he⟩ | he
    · rw [← he, inactivateOne_consolidatedFrom] at hi
      exact Nat.lt_succ_of_lt (hrefB r₀ h0 i hi)
    · rw [he] at hi
      exact Nat.lt_succ_of_lt (hcf i hi)
  case rawOnce =>
    intro r' hr' ht
    rcases (hmem' r').mp hr' with ⟨r₀, h0, he⟩ | he
    · show refCount Tier.short (setInactive p.id s.records ++ [x]) r'.id = _
      rw [refCount_append, refCount_setInactive, refCount_singleton]
      rw [if_neg (by rintro ⟨hts, -⟩; rw [htier] at hts; cases hts)]
      rw [Nat.add_zero, ← he, inactivateOne_id, inactivateOne_consumed]
      refine hraw r₀ h0 ?_
      rw [← inactivateOne_tier p.id r₀, he]
      exact ht
    · rw [he, htier] at ht
      cases ht
  case shortOnce =>
    intro r' hr' ht
    rcases (hmem' r').mp hr' with ⟨r₀, h0, he⟩ | he
    · show refCount Tier.mid (setInactive p.id s.records ++ [x]) r'.id = _
      rw [refCount_append, refCount_setInactive, refCount_singleton]
      rw [if_neg (by rintro ⟨hts, -⟩; rw [htier] at hts; cases hts)]
      rw [Nat.add_zero, ← he, inactivateOne_id, inactivateOne_consumed]
      refine hshort r₀ h0 ?_
      rw [← inactivateOne_tier p.id r₀, he]
      exact ht
    · rw [he, htier] at ht
      cases ht
  case longUnique =>
    intro c'
    show List.countP _ (setInactive p.id s.records ++ [x]) ≤ 1
    rw [List.countP_append]
    unfold setInactive
    rw [List.countP_map, countP_one]
    by_cases hc : c' = c
    · subst hc
      have hzero : List.countP
          ((fun r => decide (r.tier = Tier.long) && r.active && decide (r.category = c')) ∘
            inactivateOne p.id) s.records = 0 := by
        rw [List.countP_eq_zero]
        intro r₀ h0
        simp only [Function.comp]
        by_cases hid0 : r₀.id = p.id
        · simp [inactivateOne, hid0]
        · rw [inactivateOne_of_ne _ _ hid0]
          intro hpred
          simp only [Bool.and_eq_true, decide_eq_true_eq] at hpred
          have hr0mem : r₀ ∈ s.activeLong c' := by
            rw [mem_activeLong]
            exact ⟨h0, hpred.1.1, hpred.1.2, hpred.2⟩
          have hlen : (s.activeLong c').length ≤ 1 := by
            rw [activeLong_length_eq]
            exact hlong c'
          exact hid0 (congrArg MemoryRecord.id (mem_eq_of_length_le_one hlen hr0mem hp))
      rw [hzero]
      split <;> simp
    · have hxfalse : (decide (x.tier = Tier.long) && x.active && decide (x.category = c')) =
          false := by
        rw [hcat]
        simp [Ne.symm hc]
      rw [hxfalse]
      simp only [Bool.false_eq_true, if_false, Nat.add_zero]
      calc List.countP
            ((fun r => decide (r.tier = Tier.long) && r.active && decide (r.category = c')) ∘
              inactivateOne p.id) s.records ≤
          List.countP
            (fun r => decide (r.tier = Tier.long) && r.active && decide (r.category = c'))
            s.records := by
            refine List.countP_mono_left (fun r₀ h0 => ?_)
            simp only [Function.comp]
            by_cases hid0 : r₀.id = p.id
            · simp [inactivateOne, hid0]
            · rw [inactivateOne_of_ne _ _ hid0]
              exact fun hpred => hpred
        _ ≤ 1 := hlong c'

theorem inv_mergeLong (llm : LLM) (c : Category) (mid : MemoryRecord) (s : Store)
    (hmid : mid.id < s.nextId) (h : StoreInv s) : StoreInv (mergeLong llm c mid s) := by
  unfold mergeLong
  split
  next p hp =>
    have hpmem : p ∈ s.activeLong c := List.mem_of_mem_head? (by rw [hp]; rfl)
    refine StoreInv.setInactive_append_long s _ p c h hpmem rfl rfl rfl ?_
    intro i hi
    simp only [List.mem_cons, List.mem_singleton, List.not_mem_nil, or_false] at hi
    rcases hi with hi | hi
    · subst hi
      exact h.idBound p ((mem_activeLong s c p).mp hpmem).1
    · subst hi
      exact hmid
  next hp =>
    exact StoreInv.append_fresh_long s _ c h rfl rfl rfl
      (by
        intro i hi
        simp only [List.mem_singleton] at hi
        subst hi
        exact hmid)
      (List.head?_eq_none_iff.mp hp)

theorem inv_produceMid (llm : LLM) (c : Category) (inputs : List MemoryRecord) (s : Store)
    (hsub : List.Sublist inputs (s.pending c Tier.short)) (h : StoreInv s) :
    StoreInv (produceMid llm c inputs s) := by
  unfold produceMid
  refine inv_mergeLong llm c _ _ ?_ (inv_midWrite llm c inputs s hsub h)
  show (midSummary llm c inputs s).id < (midWrite llm c inputs s).nextId
  exact Nat.lt_succ_self _

theorem consolidateShort_of_le (llm : LLM) (c : Category) (s : Store)
    (h5 : 5 ≤ (s.pending c Tier.raw).length) :
    consolidateShort llm c s = produceShort llm c ((s.pending c Tier.raw).take 5) s := by
  unfold consolidateShort
  simp [h5]

theorem consolidateShort_of_lt (llm : LLM) (c : Category) (s : Store)
    (h5 : ¬ 5 ≤ (s.pending c Tier.raw).length) :
    consolidateShort llm c s = s := by
  unfold consolidateShort
  simp [h5]

theorem forceConsolidateShort_of_between (llm : LLM) (c : Category) (s : Store)
    (hg : 1 ≤ (s.pending c Tier.raw).length ∧ (s.pending c Tier.raw).length ≤ 4) :
    forceConsolidateShort llm c s = produceShort llm c (s.pending c Tier.raw) s := by
  unfold forceConsolidateShort
  simp [hg.1, hg.2]

theorem forceConsolidateShort_of_outside (llm : LLM) (c : Category) (s : Store)
    (hg : ¬ (1 ≤ (s.pending c Tier.raw).length ∧ (s.pending c Tier.raw).length ≤ 4)) :
    forceConsolidateShort llm c s = s := by
  unfold forceConsolidateShort
  simp only [if_neg hg]

theorem consolidateMid_of_le (llm : LLM) (c : Category) (s : Store)
    (h3 : 3 ≤ (s.pending c Tier.short).length) :
    consolidateMid llm c s = produceMid llm c ((s.pending c Tier.short).take 3) s := by
  unfold consolidateMid
  simp [h3]

theorem consolidateMid_of_lt (llm : LLM) (c : Category) (s : Store)
    (h3 : ¬ 3 ≤ (s.pending c Tier.short).length) :
    consolidateMid llm c s = s := by
  unfold consolidateMid
  simp [h3]

theorem forceConsolidateMid_of_between (llm : LLM) (c : Category) (s : Store)
    (hg : 1 ≤ (s.pending c Tier.short).length ∧ (s.pending c Tier.short).length ≤ 2) :
    forceConsolidateMid llm c s = produceMid llm c (s.pending c Tier.short) s := by
  unfold forceConsolidateMid
  simp [hg.1, hg.2]

theorem forceConsolidateMid_of_outside (llm : LLM) (c : Category) (s : Store)
    (hg : ¬ (1 ≤ (s.pending c Tier.short).length ∧ (s.pending c Tier.short).length ≤ 2)) :
    forceConsolidateMid llm c s = s := by
  unfold forceConsolidateMid
  simp only [if_neg hg]

theorem inv_applyOp (llm : LLM) (op : Op) (s : Store) (h : StoreInv s) :
    StoreInv (applyOp llm op s) := by
  cases op with
  | extract c text => exact inv_extractRaw c text s h
  | consShort c =>
    show StoreInv (consolidateShort llm c s)
    by_cases h5 : 5 ≤ (s.pending c Tier.raw).length
    · rw [consolidateShort_of_le llm c s h5]
      exact inv_produceShort llm c _ s (List.take_sublist _ _) h
    · rw [consolidateShort_of_lt llm c s h5]
      exact h
  | consMid c =>
    show StoreInv (consolidateMid llm c s)
    by_cases h3 : 3 ≤ (s.pending c Tier.short).length
    · rw [consolidateMid_of_le llm c s h3]
      exact inv_produceMid llm c _ s (List.take_sublist _ _) h
    · rw [consolidateMid_of_lt llm c s h3]
      exact h
  | forceShort c =>
    show StoreInv (forceConsolidateShort llm c s)
    by_cases hg : 1 ≤ (s.pending c Tier.raw).length ∧ (s.pending c Tier.raw).length ≤ 4
    · rw [forceConsolidateShort_of_between llm c s hg]
      exact inv_produceShort llm c _ s (List.Sublist.refl _) h
    · rw [forceConsolidateShort_of_outside llm c s hg]
      exact h
  | forceMid c =>
    show StoreInv (forceConsolidateMid llm c s)
    by_cases hg : 1 ≤ (s.pending c Tier.short).length ∧ (s.pending c Tier.short).length ≤ 2
    · rw [forceConsolidateMid_of_between llm c s hg]
      exact inv_produceMid llm c _ s (List.Sublist.refl _) h
    · rw [forceConsolidateMid_of_outside llm c s hg]
      exact h

theorem inv_reachable (llm : LLM) (s : Store) (h : Reachable llm s) : StoreInv s := by
  induction h with
  | init => exact inv_init
  | step op _ ih => exact inv_applyOp llm op _ ih

theorem pending_produceShort_nil (llm : LLM) (c : Category) (inputs : List MemoryRecord)
    (s : Store)
    (hcover : ∀ r ∈ s.pending c Tier.raw, r.id ∈ inputs.map (fun x => x.id)) :
    (produceShort llm c inputs s).pending c Tier.raw = [] := by
  unfold Store.pending
  rw [List.filter_eq_nil_iff]
  intro r' hr'
  rcases List.mem_append.mp hr' with h0 | h0
  · obtain ⟨r₀, h0, he⟩ := (mem_markConsumed _ _ _).mp h0
    intro hpend
    unfold isPending at hpend
    simp only [Bool.and_eq_true, Bool.not_eq_true', decide_eq_true_eq] at hpend
    obtain ⟨⟨hcat, htier⟩, hcons⟩ := hpend
    rw [← he, markOne_category] at hcat
    rw [← he, markOne_tier] at htier
    rw [← he, markOne_consumed] at hcons
    simp only [Bool.or_eq_false_iff, decide_eq_false_iff_not] at hcons
    have hr0pend : r₀ ∈ s.pending c Tier.raw :=
      (mem_pending s c Tier.raw r₀).mpr ⟨h0, hcat, htier, hcons.1⟩
    exact hcons.2 (hcover r₀ hr0pend)
  · simp only [List.mem_singleton] at h0
    subst h0
    intro hpend
    unfold isPending shortSummary at hpend
    simp at hpend

theorem pending_midWrite_nil (llm : LLM) (c : Category) (inputs : List MemoryRecord)
    (s : Store)
    (hcover : ∀ r ∈ s.pending c Tier.short, r.id ∈ inputs.map (fun x => x.id)) :
    (midWrite llm c inputs s).pending c Tier.short = [] := by
  unfold Store.pending
  rw [List.filter_eq_nil_iff]
  intro r' hr'
  rcases List.mem_append.mp hr' with h0 | h0
  · obtain ⟨r₀, h0, he⟩ := (mem_markConsumed _ _ _).mp h0
    intro hpend
    unfold isPending at hpend
    simp only [Bool.and_eq_true, Bool.not_eq_true', decide_eq_true_eq] at hpend
    obtain ⟨⟨hcat, htier⟩, hcons⟩ := hpend
    rw [← he, markOne_category] at hcat
    rw [← he, markOne_tier] at htier
    rw [← he, markOne_consumed] at hcons
    simp only [Bool.or_eq_false_iff, decide_eq_false_iff_not] at hcons
    have hr0pend : r₀ ∈ s.pending c Tier.short :=
      (mem_pending s c Tier.short r₀).mpr ⟨h0, hcat, htier, hcons.1⟩
    exact hcons.2 (hcover r₀ hr0pend)
  · simp only [List.mem_singleton] at h0
    subst h0
    intro hpend
    unfold isPending midSummary at hpend
    simp at hpend

theorem mergeLong_of_head_some (llm : LLM) (c : Category) (mid : MemoryRecord) (s : Store)
    (p : MemoryRecord) (hp : (s.activeLong c).head? = some p) :
    mergeLong llm c mid s =
      { records := setInactive p.id s.records ++
          [{ id := s.nextId, category := c, tier := Tier.long,
             text := llm.synthLong (some p) mid,
             consolidatedFrom := [p.id, mid.id], createdAt := s.nextId,
             active := true, consumed := false }],
        nextId := s.nextId + 1 } := by
  unfold mergeLong
  rw [hp]

theorem mergeLong_of_head_none (llm : LLM) (c : Category) (mid : MemoryRecord) (s : Store)
    (hp : (s.activeLong c).head? = none) :
    mergeLong llm c mid s =
      { records := s.records ++
          [{ id := s.nextId, category := c, tier := Tier.long,
             text := llm.synthLong none mid,
             consolidatedFrom := [mid.id], createdAt := s.nextId,
             active := true, consumed := false }],
        nextId := s.nextId + 1 } := by
  unfold mergeLong
  rw [hp]

theorem pending_mergeLong_nil (llm : LLM) (c : Category) (mid : MemoryRecord) (s : Store)
    (c' : Category) (t : Tier) (ht : t ≠ Tier.long)
    (h : s.pending c' t = []) : (mergeLong llm c mid s).pending c' t = [] := by
  have hnil := List.filter_eq_nil_iff.mp h
  cases hp : (s.activeLong c).head? with
  | some p =>
    rw [mergeLong_of_head_some llm c mid s p hp]
    unfold Store.pending
    rw [List.filter_eq_nil_iff]
    intro r' hr'
    rcases List.mem_append.mp hr' with h0 | h0
    · obtain ⟨r₀, h0, he⟩ := (mem_setInactive _ _ _).mp h0
      intro hpend
      refine hnil r₀ h0 ?_
      unfold isPending at hpend ⊢
      rw [← he, inactivateOne_category, inactivateOne_tier, inactivateOne_consumed] at hpend
      exact hpend
    · simp only [List.mem_singleton] at h0
      subst h0
      intro hpend
      unfold isPending at hpend
      simp only [Bool.and_eq_true, decide_eq_true_eq] at hpend
      exact ht hpend.1.2.symm
  | none =>
    rw [mergeLong_of_head_none llm c mid s hp]
    unfold Store.pending
    rw [List.filter_eq_nil_iff]
    intro r' hr'
    rcases List.mem_append.mp hr' with h0 | h0
    · exact hnil r' h0
    · simp only [List.mem_singleton] at h0
      subst h0
      intro hpend
      unfold isPending at hpend
      simp only [Bool.and_eq_true, decide_eq_true_eq] at hpend
      exact ht hpend.1.2.symm

theorem pending_produceMid_nil (llm : LLM) (c : Category) (inputs : List MemoryRecord)
    (s : Store)
    (hcover : ∀ r ∈ s.pending c Tier.short, r.id ∈ inputs.map (fun x => x.id)) :
    (produceMid llm c inputs s).pending c Tier.short = [] := by
  unfold produceMid
  exact pending_mergeLong_nil llm c _ _ c Tier.short (by intro h; cases h)
    (pending_midWrite_nil llm c inputs s hcover)

theorem tierCount_short_produceShort (llm : LLM) (c : Category) (inputs : List MemoryRecord)
    (s : Store) :
    tierCount (produceShort llm c inputs s) Tier.short c = tierCount s Tier.short c + 1 := by
  unfold tierCount
  show List.countP _ (markConsumed (inputs.map (fun r => r.id)) s.records ++
      [shortSummary llm c inputs s]) = _
  rw [List.countP_append, countP_tier_markConsumed, countP_one]
  simp [shortSummary]

theorem tierCount_mid_midWrite (llm : LLM) (c : Category) (inputs : List MemoryRecord)
    (s : Store) :
    tierCount (midWrite llm c inputs s) Tier.mid c = tierCount s Tier.mid c + 1 := by
  unfold tierCount
  show List.countP _ (markConsumed (inputs.map (fun r => r.id)) s.records ++
      [midSummary llm c inputs s]) = _
  rw [List.countP_append, countP_tier_markConsumed, countP_one]
  simp [midSummary]

theorem tierCount_mid_mergeLong (llm : LLM) (c : Category) (mid : MemoryRecord) (s : Store)
    (c' : Category) :
    tierCount (mergeLong llm c mid s) Tier.mid c' = tierCount s Tier.mid c' := by
  cases hp : (s.activeLong c).head? with
  | some p =>
    rw [mergeLong_of_head_some llm c mid s p hp]
    unfold tierCount
    show List.countP _ (setInactive p.id s.records ++ [_]) = _
    rw [List.countP_append, countP_tier_setInactive, countP_one]
    simp
  | none =>
    rw [mergeLong_of_head_none llm c mid s hp]
    unfold tierCount
    show List.countP _ (s.records ++ [_]) = _
    rw [List.countP_append, countP_one]
    simp

theorem tierCount_mid_produceMid (llm : LLM) (c : Category) (inputs : List MemoryRecord)
    (s : Store) :
    tierCount (produceMid llm c inputs s) Tier.mid c = tierCount s Tier.mid c + 1 := by
  unfold produceMid
  rw [tierCount_mid_mergeLong]
  exact tierCount_mid_midWrite llm c inputs s

theorem midSummary_mem_produceMid (llm : LLM) (c : Category) (inputs : List MemoryRecord)
    (s : Store) (h : StoreInv s) :
    midSummary llm c inputs s ∈ (produceMid llm c inputs s).records := by
  unfold produceMid
  have hmidmem : midSummary llm c inputs s ∈ (midWrite llm c inputs s).records := by
    show midSummary llm c inputs s ∈
      markConsumed (inputs.map (fun r => r.id)) s.records ++ [midSummary llm c inputs s]
    exact List.mem_append.mpr (Or.inr (List.mem_singleton.mpr rfl))
  cases hp : ((midWrite llm c inputs s).activeLong c).head? with
  | some p =>
    rw [mergeLong_of_head_some llm c _ _ p hp]
    show midSummary llm c inputs s ∈ setInactive p.id (midWrite llm c inputs s).records ++ [_]
    refine List.mem_append.mpr (Or.inl ?_)
    rw [mem_setInactive]
    refine ⟨midSummary llm c inputs s, hmidmem, ?_⟩
    apply inactivateOne_of_ne
    have hpal := (mem_activeLong _ c p).mp (List.mem_of_mem_head? (by rw [hp]; rfl))
    rcases List.mem_append.mp hpal.1 with h0 | h0
    · obtain ⟨r₀, h0, he⟩ := (mem_markConsumed _ _ _).mp h0
      have : p.id < s.nextId := by
        rw [← he, markOne_id]
        exact h.idBound r₀ h0
      have hms : (midSummary llm c inputs s).id = s.nextId := rfl
      rw [hms]
      exact fun hcontra => absurd (hcontra ▸ this) (lt_irrefl _)
    · simp only [List.mem_singleton] at h0
      have htp := hpal.2.1
      rw [h0] at htp
      cases htp
  | none =>
    rw [mergeLong_of_head_none llm c _ _ hp]
    show midSummary llm c inputs s ∈ (midWrite llm c inputs s).records ++ [_]
    exact List.mem_append.mpr (Or.inl hmidmem)

theorem pending_nil_of_all_consumed (s : Store) (c : Category) (t : Tier)
    (h : ∀ r ∈ s.records, r.category = c → r.tier = t → r.consumed = true) :
    s.pending c t = [] := by
  unfold Store.pending
  rw [List.filter_eq_nil_iff]
  intro r hr hpend
  unfold isPending at hpend
  simp only [Bool.and_eq_true, Bool.not_eq_true', decide_eq_true_eq] at hpend
  obtain ⟨⟨hc, ht⟩, hcons⟩ := hpend
  rw [h r hr hc ht] at hcons
  cases hcons

theorem consolidateShort_consumes_all (llm : LLM) (c : Category) (s : Store)
    (h5 : (s.pending c Tier.raw).length = 5) :
    (consolidateShort llm c s).pending c Tier.raw = [] := by
  rw [consolidateShort_of_le llm c s (le_of_eq h5.symm)]
  have htake : (s.pending c Tier.raw).take 5 = s.pending c Tier.raw := by
    rw [← h5]
    exact List.take_length _
  rw [htake]
  exact pending_produceShort_nil llm c _ s (fun r hr => List.mem_map_of_mem _ hr)

theorem consolidateShort_twice (llm : LLM) (c : Category) (s : Store)
    (h5 : (s.pending c Tier.raw).length = 5) :
    consolidateShort llm c (consolidateShort llm c s) = consolidateShort llm c s := by
  apply consolidateShort_of_lt
  rw [consolidateShort_consumes_all llm c s h5]
  simp

theorem consolidateShort_adds_one (llm : LLM) (c : Category) (s : Store)
    (h5 : 5 ≤ (s.pending c Tier.raw).length) :
    tierCount (consolidateShort llm c s) Tier.short c = tierCount s Tier.short c + 1 := by
  rw [consolidateShort_of_le llm c s h5]
  exact tierCount_short_produceShort llm c _ s

theorem mergeLong_inactivates_prev (llm : LLM) (c : Category) (mid : MemoryRecord)
    (s : Store) (p r' : MemoryRecord) (h : StoreInv s)
    (hp : (s.activeLong c).head? = some p) (hr' : r' ∈ (mergeLong llm c mid s).records)
    (hrid : r'.id = p.id) : r'.active = false := by
  rw [mergeLong_of_head_some llm c mid s p hp] at hr'
  have hpmem : p ∈ s.records :=
    ((mem_activeLong s c p).mp (List.mem_of_mem_head? (by rw [hp]; rfl))).1
  rcases List.mem_append.mp hr' with h0 | h0
  · obtain ⟨r₀, h0, he⟩ := (mem_setInactive _ _ _).mp h0
    by_cases hid0 : r₀.id = p.id
    · rw [← he]
      simp [inactivateOne, hid0]
    · exfalso
      apply hid0
      rw [← he, inactivateOne_id] at hrid
      exact hrid
  · exfalso
    simp only [List.mem_singleton] at h0
    subst h0
    have hlt := h.idBound p hpmem
    have hni : s.nextId = p.id := hrid
    rw [← hni] at hlt
    exact lt_irrefl _ hlt

theorem consumed_iff_of_count (rs : List MemoryRecord) (r : MemoryRecord) (t : Tier)
    (hcount : refCount t rs r.id = (if r.consumed then 1 else 0)) :
    (r.consumed = true ↔ ∃ x ∈ rs, x.tier = t ∧ r.id ∈ x.consolidatedFrom) := by
  constructor
  · intro hc
    rw [hc] at hcount
    have hpos : 0 < refCount t rs r.id := by rw [hcount]; simp
    unfold refCount at hpos
    obtain ⟨x, hx, hpx⟩ := List.countP_pos_iff.mp hpos
    simp only [Bool.and_eq_true, decide_eq_true_eq] at hpx
    exact ⟨x, hx, hpx.1, hpx.2⟩
  · rintro ⟨x, hx, hxt, hxm⟩
    by_contra hc
    have hc' : r.consumed = false := by
      cases hcons : r.consumed
      · rfl
      · exact absurd hcons hc
    rw [hc'] at hcount
    have hpos : 0 < refCount t rs r.id := by
      unfold refCount
      refine List.countP_pos_iff.mpr ⟨x, hx, ?_⟩
      simp [hxt, hxm]
    rw [hcount] at hpos
    simp at hpos

theorem getLast?_concat {α : Type} (l : List α) (a : α) : (l ++ [a]).getLast? = some a := by
  simp [List.getLast?_append]

theorem reach_applyOps (llm : LLM) (ops : List Op) (s : Store) (h : Reachable llm s) :
    Reachable llm (applyOps llm ops s) := by
  induction ops generalizing s with
  | nil => exact h
  | cons op rest ih => exact ih _ (Reachable.step op h)

theorem reach_store5 : Reachable llm0 store5 :=
  reach_applyOps llm0 extractOps5 Store.init Reachable.init

theorem reach_store5c : Reachable llm0 store5c :=
  Reachable.step (Op.consShort Category.worldKnowledge) reach_store5

theorem reach_store1 : Reachable llm0 store1 :=
  Reachable.step (Op.extract Category.worldKnowledge "a") Reachable.init

/-! ## Claim theorems -/

/-- C1: For every category and at every observation point, each raw memory
record is either unconsumed or consumed by exactly one short summary (it is
referenced by short summaries exactly once when consumed and never when
unconsumed, so no raw record is in the consolidatedFrom set of two different
short summaries); and when consolidation is triggered twice for a category
holding exactly 5 pending raw records, the second (serialized) trigger is a
no-op and exactly one new short summary results. -/
theorem raw_consumed_exactly_once (llm : LLM) (s : Store) (r : MemoryRecord) (c : Category)
    (h : Reachable llm s) :
    (r ∈ s.records → r.tier = Tier.raw →
      refCount Tier.short s.records r.id = (if r.consumed then 1 else 0)) ∧
    ((s.pending c Tier.raw).length = 5 →
      consolidateShort llm c (consolidateShort llm c s) = consolidateShort llm c s ∧
      tierCount (consolidateShort llm c s) Tier.short c = tierCount s Tier.short c + 1) :=
  ⟨fun hr ht => (inv_reachable llm s h).rawOnce r hr ht,
   fun h5 => ⟨consolidateShort_twice llm c s h5,
              consolidateShort_adds_one llm c s (le_of_eq h5.symm)⟩⟩

/-- Witness for C1: the invariant and the double-trigger property instantiated
at the concrete reachable store holding five pending raw records. -/
theorem raw_consumed_exactly_once_witness :
    (rec0 ∈ store5.records → rec0.tier = Tier.raw →
      refCount Tier.short store5.records rec0.id = (if rec0.consumed then 1 else 0)) ∧
    ((store5.pending Category.worldKnowledge Tier.raw).length = 5 →
      consolidateShort llm0 Category.worldKnowledge
          (consolidateShort llm0 Category.worldKnowledge store5) =
        consolidateShort llm0 Category.worldKnowledge store5 ∧
      tierCount (consolidateShort llm0 Category.worldKnowledge store5) Tier.short
          Category.worldKnowledge =
        tierCount store5 Tier.short Category.worldKnowledge + 1) :=
  raw_consumed_exactly_once llm0 store5 rec0 Category.worldKnowledge reach_store5

/-- C2: For every category and at every reachable store state, at most one
long-tier record with active = true exists for that category; a long-summary
merge sets active = false on the previous long record and leaves at most one
active long record. -/
theorem active_long_unique (llm : LLM) (s : Store) (c : Category)
    (mid p r' : MemoryRecord) (h : Reachable llm s) :
    activeLongCount s c ≤ 1 ∧
    ((s.activeLong c).head? = some p → r' ∈ (mergeLong llm c mid s).records →
      r'.id = p.id → r'.active = false) ∧
    (mid.id < s.nextId → activeLongCount (mergeLong llm c mid s) c ≤ 1) := by
  have hinv := inv_reachable llm s h
  exact ⟨hinv.longUnique c,
    fun hp hr' hrid => mergeLong_inactivates_prev llm c mid s p r' hinv hp hr' hrid,
    fun hmid => (inv_mergeLong llm c mid s hmid hinv).longUnique c⟩

/-- Witness for C2: the single-active-long property instantiated at the
concrete reachable store store5c. -/
theorem active_long_unique_witness :
    activeLongCount store5c Category.worldKnowledge ≤ 1 ∧
    ((store5c.activeLong Category.worldKnowledge).head? = some rec0 →
      rec0 ∈ (mergeLong llm0 Category.worldKnowledge rec0 store5c).records →
      rec0.id = rec0.id → rec0.active = false) ∧
    (rec0.id < store5c.nextId →
      activeLongCount (mergeLong llm0 Category.worldKnowledge rec0 store5c)
        Category.worldKnowledge ≤ 1) :=
  active_long_unique llm0 store5c Category.worldKnowledge rec0 rec0 rec0 reach_store5c

/-- C3: for every retrieval call, every category whose search collaborator
succeeds appears in the result with its (capped) results, a failing category
is omitted (the call raises nothing — retrieve is total), and when every
category fails the result map is empty. -/
theorem retrieval_partial_failure (search : Category → Option (List String)) (topK : Nat)
    (userIds : List Nat) (c : Category) (res p : List String) :
    (c ∈ queryCategories userIds → search c = some res →
      (c, res.take topK) ∈ retrieveContext search topK userIds) ∧
    ((c, p) ∈ retrieveContext search topK userIds →
      c ∈ queryCategories userIds ∧ ∃ r0, search c = some r0 ∧ p = r0.take topK) ∧
    (search c = none → (c, p) ∉ retrieveContext search topK userIds) ∧
    ((∀ c' ∈ queryCategories userIds, search c' = none) →
      retrieveContext search topK userIds = []) := by
  have hchar : ∀ q : Category × List String,
      q ∈ retrieveContext search topK userIds ↔
        ∃ a ∈ queryCategories userIds,
          Option.map (fun r0 => (a, r0.take topK)) (search a) = some q := by
    intro q
    unfold retrieveContext retrieve
    exact List.mem_filterMap
  refine ⟨?_, ?_, ?_, ?_⟩
  · intro hc hs
    rw [hchar]
    exact ⟨c, hc, by rw [hs]; rfl⟩
  · intro hmem
    rw [hchar] at hmem
    obtain ⟨a, ha, hfa⟩ := hmem
    cases hsa : search a with
    | none =>
      rw [hsa] at hfa
      cases hfa
    | some ra =>
      rw [hsa] at hfa
      simp only [Option.map_some'] at hfa
      have hpair := Option.some.inj hfa
      have hac : a = c := congrArg Prod.fst hpair
      have hpr : p = ra.take topK := (congrArg Prod.snd hpair).symm
      subst hac
      exact ⟨ha, ra, hsa, hpr⟩
  · intro hnone hmem
    rw [hchar] at hmem
    obtain ⟨a, _, hfa⟩ := hmem
    cases hsa : search a with
    | none =>
      rw [hsa] at hfa
      cases hfa
    | some ra =>
      rw [hsa] at hfa
      simp only [Option.map_some'] at hfa
      have hac : a = c := congrArg Prod.fst (Option.some.inj hfa)
      rw [hac, hnone] at hsa
      cases hsa
  · intro hall
    unfold retrieveContext retrieve
    rw [List.filterMap_eq_nil_iff]
    intro a ha
    rw [hall a ha]
    rfl

/-- Witness for C3: retrieval with the self-reflection collaborator timing
out returns the other categories and omits self-reflection. -/
theorem retrieval_partial_failure_witness :
    (Category.worldKnowledge ∈ queryCategories [] →
      (fun c => if c = Category.selfReflection then none else some ["x"]) Category.worldKnowledge = some ["x"] →
      (Category.worldKnowledge, (["x"] : List String).take 5) ∈
        retrieveContext (fun c => if c = Category.selfReflection then none else some ["x"]) 5 []) ∧
    ((Category.worldKnowledge, (["x"] : List String)) ∈
        retrieveContext (fun c => if c = Category.selfReflection then none else some ["x"]) 5 [] →
      Category.worldKnowledge ∈ queryCategories [] ∧
        ∃ r0, (fun c => if c = Category.selfReflection then none else some ["x"]) Category.worldKnowledge = some r0 ∧
          (["x"] : List String) = r0.take 5) ∧
    ((fun c => if c = Category.selfReflection then none else some ["x"]) Category.worldKnowledge = none →
      (Category.worldKnowledge, (["x"] : List String)) ∉
        retrieveContext (fun c => if c = Category.selfReflection then none else some ["x"]) 5 []) ∧
    ((∀ c' ∈ queryCategories [],
        (fun c => if c = Category.selfReflection then none else some ["x"]) c' = none) →
      retrieveContext (fun c => if c = Category.selfReflection then none else some ["x"]) 5 [] = []) :=
  retrieval_partial_failure (fun c => if c = Category.selfReflection then none else some ["x"])
    5 [] Category.worldKnowledge ["x"] ["x"]

/-- C4: for every consolidation cycle at a reachable store state, the summary
write and the consumed-marks correspond exactly — a raw record is marked
consumed precisely when some short summary lists it among its inputs, and a
short summary is marked consumed precisely when some mid summary lists it (so
neither half of a consolidation is observable without the other); and on store
unavailability the operation fails with StoreUnavailable, applying no write. -/
theorem consolidation_atomic (llm : LLM) (s : Store) (op : Op) (r : MemoryRecord)
    (h : Reachable llm s) :
    (r ∈ s.records → r.tier = Tier.raw →
      (r.consumed = true ↔
        ∃ sh ∈ s.records, sh.tier = Tier.short ∧ r.id ∈ sh.consolidatedFrom)) ∧
    (r ∈ s.records → r.tier = Tier.short →
      (r.consumed = true ↔
        ∃ m ∈ s.records, m.tier = Tier.mid ∧ r.id ∈ m.consolidatedFrom)) ∧
    applyOpE llm false op s = Except.error MemError.storeUnavailable := by
  have hinv := inv_reachable llm s h
  refine ⟨?_, ?_, rfl⟩
  · intro hr ht
    exact consumed_iff_of_count s.records r Tier.short (hinv.rawOnce r hr ht)
  · intro hr ht
    exact consumed_iff_of_count s.records r Tier.mid (hinv.shortOnce r hr ht)

/-- Witness for C4: the consumed-mark and summary-write correspondence
instantiated at the concrete reachable store store5c. -/
theorem consolidation_atomic_witness :
    (rec0 ∈ store5c.records → rec0.tier = Tier.raw →
      (rec0.consumed = true ↔
        ∃ sh ∈ store5c.records, sh.tier = Tier.short ∧ rec0.id ∈ sh.consolidatedFrom)) ∧
    (rec0 ∈ store5c.records → rec0.tier = Tier.short →
      (rec0.consumed = true ↔
        ∃ m ∈ store5c.records, m.tier = Tier.mid ∧ rec0.id ∈ m.consolidatedFrom)) ∧
    applyOpE llm0 false (Op.consShort Category.worldKnowledge) store5c =
      Except.error MemError.storeUnavailable :=
  consolidation_atomic llm0 store5c (Op.consShort Category.worldKnowledge) rec0 reach_store5c

/-- C5: at a session boundary, a category with 1 to 4 pending unconsumed raw
records is force-elevated into exactly one new short summary covering all the
pending records' ids, leaving zero unconsumed raw records; a category with 1
to 2 pending unconsumed short summaries is force-elevated into exactly one new
mid summary covering all of them, leaving zero unconsumed short summaries. -/
theorem force_elevation_clears_backlog (llm : LLM) (s : Store) (c : Category)
    (h : Reachable llm s) :
    (1 ≤ (s.pending c Tier.raw).length → (s.pending c Tier.raw).length ≤ 4 →
      tierCount (forceConsolidateShort llm c s) Tier.short c =
        tierCount s Tier.short c + 1 ∧
      (forceConsolidateShort llm c s).records.getLast? =
        some (shortSummary llm c (s.pending c Tier.raw) s) ∧
      (shortSummary llm c (s.pending c Tier.raw) s).consolidatedFrom =
        (s.pending c Tier.raw).map (fun r => r.id) ∧
      (forceConsolidateShort llm c s).pending c Tier.raw = []) ∧
    (1 ≤ (s.pending c Tier.short).length → (s.pending c Tier.short).length ≤ 2 →
      tierCount (forceConsolidateMid llm c s) Tier.mid c = tierCount s Tier.mid c + 1 ∧
      (∃ m ∈ (forceConsolidateMid llm c s).records, m.tier = Tier.mid ∧
        m.consolidatedFrom = (s.pending c Tier.short).map (fun r => r.id)) ∧
      (forceConsolidateMid llm c s).pending c Tier.short = []) := by
  constructor
  · intro h1 h4
    rw [forceConsolidateShort_of_between llm c s ⟨h1, h4⟩]
    refine ⟨tierCount_short_produceShort llm c _ s, ?_, rfl, ?_⟩
    · show (markConsumed ((s.pending c Tier.raw).map (fun r => r.id)) s.records ++
          [shortSummary llm c (s.pending c Tier.raw) s]).getLast? = _
      exact getLast?_concat _ _
    · exact pending_produceShort_nil llm c _ s (fun r hr => List.mem_map_of_mem _ hr)
  · intro h1 h2
    rw [forceConsolidateMid_of_between llm c s ⟨h1, h2⟩]
    refine ⟨tierCount_mid_produceMid llm c _ s, ?_, ?_⟩
    · exact ⟨midSummary llm c (s.pending c Tier.short) s,
        midSummary_mem_produceMid llm c _ s (inv_reachable llm s h), rfl, rfl⟩
    · exact pending_produceMid_nil llm c _ s (fun r hr => List.mem_map_of_mem _ hr)

/-- Witness for C5: force-elevation instantiated at the concrete reachable
store holding one pending raw record. -/
theorem force_elevation_clears_backlog_witness :
    (1 ≤ (store1.pending Category.worldKnowledge Tier.raw).length →
      (store1.pending Category.worldKnowledge Tier.raw).length ≤ 4 →
      tierCount (forceConsolidateShort llm0 Category.worldKnowledge store1) Tier.short
          Category.worldKnowledge =
        tierCount store1 Tier.short Category.worldKnowledge + 1 ∧
      (forceConsolidateShort llm0 Category.worldKnowledge store1).records.getLast? =
        some (shortSummary llm0 Category.worldKnowledge
          (store1.pending Category.worldKnowledge Tier.raw) store1) ∧
      (shortSummary llm0 Category.worldKnowledge
          (store1.pending Category.worldKnowledge Tier.raw) store1).consolidatedFrom =
        (store1.pending Category.worldKnowledge Tier.raw).map (fun r => r.id) ∧
      (forceConsolidateShort llm0 Category.worldKnowledge store1).pending
        Category.worldKnowledge Tier.raw = []) ∧
    (1 ≤ (store1.pending Category.worldKnowledge Tier.short).length →
      (store1.pending Category.worldKnowledge Tier.short).length ≤ 2 →
      tierCount (forceConsolidateMid llm0 Category.worldKnowledge store1) Tier.mid
          Category.worldKnowledge =
        tierCount store1 Tier.mid Category.worldKnowledge + 1 ∧
      (∃ m ∈ (forceConsolidateMid llm0 Category.worldKnowledge store1).records,
        m.tier = Tier.mid ∧
        m.consolidatedFrom =
          (store1.pending Category.worldKnowledge Tier.short).map (fun r => r.id)) ∧
      (forceConsolidateMid llm0 Category.worldKnowledge store1).pending
        Category.worldKnowledge Tier.short = []) :=
  force_elevation_clears_backlog llm0 store1 Category.worldKnowledge reach_store1

/-- C6: consolidation is idempotent at the record level — when every record of
a category at the input tier is already marked consumed, re-running threshold
or forced consolidation leaves the store entirely unchanged (no new summary
record and no flag changes), the no-op being detected via the consumed flag. -/
theorem consolidation_idempotent_on_consumed (llm : LLM) (s : Store) (c : Category) :
    ((∀ r ∈ s.records, r.category = c → r.tier = Tier.raw → r.consumed = true) →
      consolidateShort llm c s = s ∧ forceConsolidateShort llm c s = s) ∧
    ((∀ r ∈ s.records, r.category = c → r.tier = Tier.short → r.consumed = true) →
      consolidateMid llm c s = s ∧ forceConsolidateMid llm c s = s) := by
  constructor
  · intro hall
    have hnil := pending_nil_of_all_consumed s c Tier.raw hall
    constructor
    · refine consolidateShort_of_lt llm c s ?_
      rw [hnil]
      simp
    · refine forceConsolidateShort_of_outside llm c s ?_
      rw [hnil]
      simp
  · intro hall
    have hnil := pending_nil_of_all_consumed s c Tier.short hall
    constructor
    · refine consolidateMid_of_lt llm c s ?_
      rw [hnil]
      simp
    · refine forceConsolidateMid_of_outside llm c s ?_
      rw [hnil]
      simp

/-- Witness for C6: idempotence instantiated at the concrete store store5c, in
which every world-knowledge raw record is already consumed. -/
theorem consolidation_idempotent_on_consumed_witness :
    ((∀ r ∈ store5c.records, r.category = Category.worldKnowledge → r.tier = Tier.raw →
        r.consumed = true) →
      consolidateShort llm0 Category.worldKnowledge store5c = store5c ∧
      forceConsolidateShort llm0 Category.worldKnowledge store5c = store5c) ∧
    ((∀ r ∈ store5c.records, r.category = Category.worldKnowledge → r.tier = Tier.short →
        r.consumed = true) →
      consolidateMid llm0 Category.worldKnowledge store5c = store5c ∧
      forceConsolidateMid llm0 Category.worldKnowledge store5c = store5c) :=
  consolidation_idempotent_on_consumed llm0 store5c Category.worldKnowledge

/-- Counterexample for C7: the claim that the agent loop never blocks on
consolidation (fire-and-forget) is false for startAISystem — the events the
loop emits after triggering consolidation depend on the consolidation
outcome, because the loop awaits extractAndSaveLearnings before proceeding:
the success trace goes on to clear the history while the failure trace logs
the error, so the post-trigger behavior differs between outcomes. -/
theorem loop_nonblocking_false : ¬ loopNeverBlocksOnConsolidation := by
  intro h
  have h2 := h (Except.ok ()) (Except.error MemError.extractionFailed) (Except.ok ())
  simp [sessionBoundary, memoryProcessing] at h2

/-- C7 (amended): the agent loop triggers consolidation synchronously at the
session boundary and blocks until it completes — every run starts with the
awaited extractAndSaveLearnings call, idle mode is entered only afterwards,
and the loop's subsequent events depend on the consolidation outcome (so it
is not fire-and-forget); consolidation failures are still caught, so the loop
proceeds to idle in every case. -/
theorem loop_awaits_consolidation (er cr : Except MemError Unit) :
    (sessionBoundary er cr).take 2 =
      [LoopEvent.logMemoryStart, LoopEvent.extractLearnings] ∧
    LoopEvent.setStatusInactive ∈ (sessionBoundary er cr).drop 2 ∧
    (sessionBoundary (Except.ok ()) cr).drop 2 ≠
      (sessionBoundary (Except.error MemError.extractionFailed) cr).drop 2 := by
  cases er <;> cases cr <;> simp [sessionBoundary, memoryProcessing]

/-- Witness for C7 (amended): the blocking behavior at the concrete successful
extraction and successful clear outcome. -/
theorem loop_awaits_consolidation_witness :
    (sessionBoundary (Except.ok ()) (Except.ok ())).take 2 =
      [LoopEvent.logMemoryStart, LoopEvent.extractLearnings] ∧
    LoopEvent.setStatusInactive ∈ (sessionBoundary (Except.ok ()) (Except.ok ())).drop 2 ∧
    (sessionBoundary (Except.ok ()) (Except.ok ())).drop 2 ≠
      (sessionBoundary (Except.error MemError.extractionFailed) (Except.ok ())).drop 2 :=
  loop_awaits_consolidation (Except.ok ()) (Except.ok ())

/-- C8: the short-term history is cleared only after extractAndSaveLearnings
has completed successfully — clearShortTermHistory appears in the session
boundary trace exactly when extraction succeeded, and in the success trace it
comes directly after the extraction call; on extraction failure the log is
left uncleared for the next cycle. -/
theorem clear_only_after_successful_extraction (er cr : Except MemError Unit) :
    (LoopEvent.clearShortTermHistory ∈ sessionBoundary er cr ↔ er = Except.ok ()) ∧
    (sessionBoundary (Except.ok ()) cr).take 3 =
      [LoopEvent.logMemoryStart, LoopEvent.extractLearnings,
       LoopEvent.clearShortTermHistory] := by
  cases er with
  | error e => cases cr <;> simp [sessionBoundary, memoryProcessing]
  | ok u =>
    cases u
    cases cr <;> simp [sessionBoundary, memoryProcessing]

/-- Witness for C8: the clear-after-extraction property at the concrete failed
extraction outcome. -/
theorem clear_only_after_successful_extraction_witness :
    (LoopEvent.clearShortTermHistory ∈
        sessionBoundary (Except.error MemError.extractionFailed) (Except.ok ()) ↔
      Except.error MemError.extractionFailed = Except.ok ()) ∧
    (sessionBoundary (Except.ok ()) (Except.ok ())).take 3 =
      [LoopEvent.logMemoryStart, LoopEvent.extractLearnings,
       LoopEvent.clearShortTermHistory] :=
  clear_only_after_successful_extraction (Except.error MemError.extractionFailed)
    (Except.ok ())

/-- C9: for every memory-subsystem failure (SourceUnavailable,
ExtractionFailed, StoreUnavailable) raised during session-boundary memory
processing, the hosting loop is not aborted: the failure is caught and
logged and the loop proceeds to idle and resumes, reaching its next
iteration. -/
theorem memory_failure_never_aborts_loop (e : MemError) (cr : Except MemError Unit) :
    sessionBoundary (Except.error e) cr =
      [LoopEvent.logMemoryStart, LoopEvent.extractLearnings, LoopEvent.logMemoryError,
       LoopEvent.setStatusInactive, LoopEvent.idleSleep, LoopEvent.setStatusActive] ∧
    LoopEvent.setStatusActive ∈ sessionBoundary (Except.error e) cr := by
  refine ⟨rfl, ?_⟩
  simp [sessionBoundary, memoryProcessing]

/-- Witness for C9: the caught-and-continue behavior at the concrete
StoreUnavailable failure. -/
theorem memory_failure_never_aborts_loop_witness :
    sessionBoundary (Except.error MemError.storeUnavailable) (Except.ok ()) =
      [LoopEvent.logMemoryStart, LoopEvent.extractLearnings, LoopEvent.logMemoryError,
       LoopEvent.setStatusInactive, LoopEvent.idleSleep, LoopEvent.setStatusActive] ∧
    LoopEvent.setStatusActive ∈
      sessionBoundary (Except.error MemError.storeUnavailable) (Except.ok ()) :=
  memory_failure_never_aborts_loop MemError.storeUnavailable (Except.ok ())

/-- C10: for every tweet the bot has already replied to (hasAlreadyActioned
returns true), replyToTweet returns success = false with the message
"Already replied to this tweet" and performs no side effect at all — no
fetch, no like, no tweet send, no tweet log and no interaction log. -/
theorem reply_already_actioned_noop (env : ReplyEnv) (replyToTweetId text : String)
    (mediaUrls : Option (List String)) (h : env.hasAlreadyActioned = true) :
    replyToTweet env replyToTweetId text mediaUrls =
      ({ success := false, message := "Already replied to this tweet", tweetId := none },
       []) := by
  unfold replyToTweet
  rw [if_pos h]

/-- Witness for C10: the no-op early return at a concrete already-replied
environment. -/
theorem reply_already_actioned_noop_witness :
    env0.hasAlreadyActioned = true ∧
    replyToTweet env0 "123" "hello" none =
      ({ success := false, message := "Already replied to this tweet", tweetId := none },
       []) :=
  ⟨rfl, reply_already_actioned_noop env0 "123" "hello" none rfl⟩
